import Mathlib

/-!
Verification of the nyx menu core (`nyx/menu/menu.py`): the `MenuCursor`
key-handling state machine and the recursive submenu layout of
`_draw_submenu`.

The menu tree (`nyx/menu/item.py`) is not among the sources; its operations
are modelled from the spec (section 3 and 4.1).  A node of the tree is
identified by its *path*: the list of 0-based child indices from the root.
This encodes the parent back-references of the spec ("every non-root node has
exactly one parent"), so `get_parent` is dropping the last index and
`get_hierarchy` is the list of path prefixes.  Operations that the Python
code performs fallibly (list indexing, `hierarchy[1]`) return `Option`;
`none` stands for a raised exception.
-/

namespace Nyx

/-- 3-part display label of a menu item. -/
abbrev Label := String × String × String

/-- Modelled from the spec: `MenuNode` ("a tree node, one of two variants"):
a Submenu with an ordered sequence of children, or an Action whose effect,
when invoked, returns a boolean saying whether the menu session should
close.  The effect is opaque; only its boolean result is recorded. -/
inductive MenuItem where
  | submenu (label : Label) (children : List MenuItem)
  | action (label : Label) (effect : Bool)

/-- Modelled from the spec: the node's 3-part label. -/
def MenuItem.get_label : MenuItem → Label
  | .submenu l _ => l
  | .action l _ => l

/-- Modelled from the spec: `get_children()` returns the child sequence of a
Submenu; an Action is a terminal node with no children. -/
def MenuItem.get_children : MenuItem → List MenuItem
  | .submenu _ cs => cs
  | .action _ _ => []

/-- Modelled from the spec: `is_empty()`, whether the node has no children. -/
def MenuItem.is_empty (m : MenuItem) : Bool :=
  m.get_children.isEmpty

/-- Whether the node is a Submenu (the Python `isinstance` check). -/
def MenuItem.isSubmenu : MenuItem → Bool
  | .submenu _ _ => true
  | .action _ _ => false

/-- Modelled from the spec: `select()` on an Action invokes its effect and
returns whether the session should terminate.  `select()` on a Submenu is
not a supported input (navigation intercepts selection on submenus), so its
value there is never relied on. -/
def MenuItem.select : MenuItem → Bool
  | .submenu _ _ => false
  | .action _ b => b

/-- Resolve a path of child indices to the node it denotes, if any. -/
def MenuItem.nodeAt : MenuItem → List Nat → Option MenuItem
  | m, [] => some m
  | m, i :: p =>
    match m.get_children[i]? with
    | some c => c.nodeAt p
    | none => none

/-- The child list of the node a path denotes (empty if the path denotes
nothing). -/
def childrenAt (root : MenuItem) (p : List Nat) : List MenuItem :=
  match root.nodeAt p with
  | some m => m.get_children
  | none => []

/-- Modelled from the spec: `get_hierarchy()` returns the root-to-self path
[root, …, node]; in the path encoding, the list of prefixes of the path.
Its length equals depth + 1. -/
def hierarchy (p : List Nat) : List (List Nat) :=
  (List.range (p.length + 1)).map fun k => p.take k

/-- Modelled from the spec: `prev()`, the cyclic predecessor among the
node's siblings (wrapping from first to last); no-op on the root. -/
def MenuPath.prev (root : MenuItem) (p : List Nat) : List Nat :=
  match p.getLast? with
  | none => p
  | some i =>
    let n := (childrenAt root p.dropLast).length
    p.dropLast ++ [(i + n - 1) % n]

/-- Modelled from the spec: `next()`, the cyclic successor among the node's
siblings (wrapping from last to first); no-op on the root. -/
def MenuPath.next (root : MenuItem) (p : List Nat) : List Nat :=
  match p.getLast? with
  | none => p
  | some i =>
    let n := (childrenAt root p.dropLast).length
    p.dropLast ++ [(i + 1) % n]

/-- The key events `handle_key` distinguishes.  `close` is the `esc`/`m`
match of the source; `other` is any unrecognized key. -/
inductive Key where
  | select
  | up
  | down
  | left
  | right
  | close
  | other
deriving DecidableEq

/-- `MenuCursor` state: the current selection (as a path into the tree) and
the completion flag `_is_done`. -/
structure MenuCursor where
  selection : List Nat
  is_done : Bool
deriving DecidableEq

/-- `MenuCursor.handle_key` (menu.py lines 42-78).  The selection must
denote a node of the tree (in Python the selection is always a live node
object, so paths outside the tree have no counterpart there).  `none`
models a raised exception: `selection_hierarchy[1]` on a too-short
hierarchy, or `get_children()[0]` on an empty child list. -/
def MenuCursor.handle_key (cur : MenuCursor) (root : MenuItem) (key : Key) :
    Option MenuCursor :=
  match root.nodeAt cur.selection with
  | none => none
  | some sel =>
    let hier := hierarchy cur.selection
    match key with
    | .select =>
      if sel.isSubmenu then
        if !sel.is_empty then
          some { cur with selection := cur.selection ++ [0] }
        else
          some cur
      else
        some { cur with is_done := sel.select }
    | .up => some { cur with selection := MenuPath.prev root cur.selection }
    | .down => some { cur with selection := MenuPath.next root cur.selection }
    | .left =>
      if hier.length ≤ 3 then
        -- shift to the previous main submenu
        match hier[1]? with
        | none => none
        | some h1 =>
          let ps := MenuPath.prev root h1
          match (childrenAt root ps)[0]? with
          | some _ => some { cur with selection := ps ++ [0] }
          | none => none
      else
        -- go up a submenu level
        some { cur with selection := cur.selection.dropLast }
    | .right =>
      if sel.isSubmenu then
        -- open submenu (same as making a selection)
        if !sel.is_empty then
          some { cur with selection := cur.selection ++ [0] }
        else
          some cur
      else
        -- shift to the next main submenu
        match hier[1]? with
        | none => none
        | some h1 =>
          let ns := MenuPath.next root h1
          match (childrenAt root ns)[0]? with
          | some _ => some { cur with selection := ns ++ [0] }
          | none => none
    | .close => some { cur with is_done := true }
    | .other => some cur

/-- Feed a list of keys to the cursor in order; a raised exception aborts
the run. -/
def MenuCursor.apply_keys (cur : MenuCursor) (root : MenuItem) :
    List Key → Option MenuCursor
  | [] => some cur
  | k :: ks =>
    match cur.handle_key root k with
    | some cur2 => cur2.apply_keys root ks
    | none => none

/-- Every Submenu in the list, recursively, has at least one child
("ordered, non-empty-by-construction sequence of child MenuNodes"). -/
def wfList : List MenuItem → Bool
  | [] => true
  | .action _ _ :: rest => wfList rest
  | .submenu _ cs :: rest => !cs.isEmpty && wfList cs && wfList rest

/-- Well-formed tree: the root is a Submenu with at least one top-level
submenu, every top-level child is a Submenu with at least one child, and
every nested Submenu is non-empty. -/
def wf_root : MenuItem → Bool
  | .submenu _ cs => !cs.isEmpty && cs.all MenuItem.isSubmenu && wfList cs
  | .action _ _ => false

/-! ### Renderer: `_draw_submenu` (menu.py lines 137-186)

The curses side effects are abstracted into a `Panel` value per recursion
level; window allocation is modelled as always succeeding (allocation
failure only omits a level's visual, out of the claims' scope). -/

/-- Column widths of a submenu's rows (menu.py lines 152-155): Python
`max()` of the length of each label part, taken independently.  Python
`max` raises on an empty list; here the fold starts at 0 — the renderer
only ever calls this on a non-empty child list, where the two agree. -/
def col_sizes (labels : List Label) : Nat × Nat × Nat :=
  ((labels.map fun l => l.1.length).foldl Nat.max 0,
   (labels.map fun l => l.2.1.length).foldl Nat.max 0,
   (labels.map fun l => l.2.2.length).foldl Nat.max 0)

/-- Left-justified fixed-width field, as Python "%-ws" % s: pad with
spaces to width w, never truncate. -/
def ljust (s : String) (w : Nat) : String :=
  s ++ String.mk (List.replicate (w - s.length) ' ')

/-- One formatted row (menu.py line 159): a leading space, the three
left-justified label parts, a trailing space. -/
def format_label (w : Nat × Nat × Nat) (l : Label) : String :=
  " " ++ ljust l.1 w.1 ++ ljust l.2.1 w.2.1 ++ ljust l.2.2 w.2.2 ++ " "

/-- `menu_width` (menu.py line 160): the length of the format applied to
three empty strings. -/
def menu_width (labels : List Label) : Nat :=
  (format_label (col_sizes labels) ("", "", "")).length

/-- The drawing performed for one submenu level: geometry of the popup
window, the formatted rows, and which row is drawn highlighted. -/
structure Panel where
  top : Nat
  left : Nat
  height : Nat
  width : Nat
  rows : List String
  selection_top : Nat
deriving DecidableEq

/-- `_draw_submenu` as a pure function returning the panels drawn, one per
open submenu level from `level` down.  `sel` is the cursor's selection
path.  `selection_top` is the index of the selected child inside this
panel: the Python code finds it by scanning `submenu.get_children()` for
the object identical to `hierarchy[level + 1]`, which for a selection that
is a node of the tree is exactly the path entry `sel[level]`. -/
def draw_submenu (root : MenuItem) (sel : List Nat) (level top left : Nat) :
    List Panel :=
  -- checks if there's nothing to display
  if _h : sel.length + 1 < level + 2 then
    []
  else
    let children := childrenAt root (sel.take level)
    let all_label_sets := children.map MenuItem.get_label
    let w := col_sizes all_label_sets
    let mw := menu_width all_label_sets
    let sel_top := sel.getD level 0
    { top := top
      left := left
      height := children.length
      width := mw
      rows := all_label_sets.map (format_label w)
      selection_top := sel_top } ::
      draw_submenu root sel (level + 1) (top + sel_top) (left + mw)
termination_by sel.length + 1 - level
decreasing_by omega

/-! ### Helper lemmas about the tree model -/

theorem nodeAt_concat (root : MenuItem) (q : List Nat) (j : Nat) :
    root.nodeAt (q ++ [j]) = (root.nodeAt q).bind fun m => m.get_children[j]? := by
  induction q generalizing root with
  | nil =>
    simp only [List.nil_append, MenuItem.nodeAt]
    cases h : root.get_children[j]? <;> simp [h]
  | cons i q ih =>
    simp only [List.cons_append, MenuItem.nodeAt]
    cases h : root.get_children[i]? with
    | none => simp [MenuItem.nodeAt, h]
    | some c => simp only [MenuItem.nodeAt, h]; exact ih c

theorem childrenAt_nil (root : MenuItem) : childrenAt root [] = root.get_children := rfl

theorem childrenAt_of_nodeAt (root : MenuItem) (q : List Nat) (m : MenuItem)
    (hq : root.nodeAt q = some m) : childrenAt root q = m.get_children := by
  simp [childrenAt, hq]

theorem valid_concat (root : MenuItem) (q : List Nat) (j : Nat) (m : MenuItem)
    (hq : root.nodeAt q = some m) (hj : j < m.get_children.length) :
    (root.nodeAt (q ++ [j])).isSome = true := by
  rw [nodeAt_concat, hq]
  simp [List.getElem?_eq_getElem hj]

theorem hierarchy_length (p : List Nat) : (hierarchy p).length = p.length + 1 := by
  simp [hierarchy]

theorem hierarchy_one (t : Nat) (r : List Nat) : (hierarchy (t :: r))[1]? = some [t] := by
  simp [hierarchy]

theorem prev_concat (root : MenuItem) (q : List Nat) (j : Nat) :
    MenuPath.prev root (q ++ [j]) =
      q ++ [(j + (childrenAt root q).length - 1) % (childrenAt root q).length] := by
  simp [MenuPath.prev, List.getLast?_concat, List.dropLast_concat]

theorem next_concat (root : MenuItem) (q : List Nat) (j : Nat) :
    MenuPath.next root (q ++ [j]) =
      q ++ [(j + 1) % (childrenAt root q).length] := by
  simp [MenuPath.next, List.getLast?_concat, List.dropLast_concat]

theorem isEmpty_eq_false_iff (l : List MenuItem) : l.isEmpty = false ↔ l ≠ [] := by
  cases l <;> simp

theorem wfList_mem_submenu (cs : List MenuItem) (hw : wfList cs = true)
    (lab : Label) (ds : List MenuItem) (hm : MenuItem.submenu lab ds ∈ cs) :
    ds ≠ [] ∧ wfList ds = true := by
  induction cs with
  | nil => cases hm
  | cons c rest ih =>
    rcases List.mem_cons.mp hm with h | h
    · subst h
      simp only [wfList, Bool.and_eq_true] at hw
      exact ⟨(isEmpty_eq_false_iff ds).mp (by simpa using hw.1.1), hw.1.2⟩
    · cases c with
      | action l b => exact ih (by simpa [wfList] using hw) h
      | submenu l e =>
        simp only [wfList, Bool.and_eq_true] at hw
        exact ih hw.2 h

theorem wf_root_top_ne_nil (root : MenuItem) (hw : wf_root root = true) :
    root.get_children ≠ [] := by
  cases root with
  | action l b => simp [wf_root] at hw
  | submenu l cs =>
    simp only [wf_root, Bool.and_eq_true] at hw
    exact (isEmpty_eq_false_iff cs).mp (by simpa using hw.1.1)

/-- Under a well-formed tree, every top-level entry is a submenu with at
least one child, so indexing its first child succeeds. -/
theorem wf_top_child_first (root : MenuItem) (hw : wf_root root = true)
    (j : Nat) (hj : j < root.get_children.length) :
    ∃ c, (childrenAt root [j])[0]? = some c := by
  cases root with
  | action l b => simp [wf_root] at hw
  | submenu l cs =>
    simp only [wf_root, Bool.and_eq_true] at hw
    obtain ⟨⟨_, hall⟩, hwl⟩ := hw
    have hj' : j < cs.length := by simpa [MenuItem.get_children] using hj
    have hmem : cs[j] ∈ cs := List.getElem_mem hj'
    have hsub : (cs[j]).isSubmenu = true := List.all_eq_true.mp hall _ hmem
    cases hcj : cs[j] with
    | action l2 b2 => rw [hcj] at hsub; simp [MenuItem.isSubmenu] at hsub
    | submenu l2 ds =>
      have hmem2 : MenuItem.submenu l2 ds ∈ cs := hcj ▸ hmem
      obtain ⟨hds, _⟩ := wfList_mem_submenu cs hwl l2 ds hmem2
      have hch : childrenAt (MenuItem.submenu l cs) [j] = ds := by
        simp [childrenAt, MenuItem.nodeAt, MenuItem.get_children,
          List.getElem?_eq_getElem hj', hcj]
      rw [hch]
      cases ds with
      | nil => exact absurd rfl hds
      | cons d ds2 => exact ⟨d, by simp⟩

/-! ### Shared lemmas about `handle_key` -/

/-- SELECT and RIGHT on a Submenu both descend to the first child when it
exists and otherwise leave the cursor unchanged. -/
theorem handle_descend (root : MenuItem) (p : List Nat) (d : Bool)
    (lab : Label) (cs : List MenuItem)
    (hs : root.nodeAt p = some (.submenu lab cs)) (k : Key)
    (hk : k = .select ∨ k = .right) :
    MenuCursor.handle_key ⟨p, d⟩ root k =
      some ⟨if cs.isEmpty then p else p ++ [0], d⟩ := by
  rcases hk with rfl | rfl <;>
  · simp only [MenuCursor.handle_key, hs, MenuItem.isSubmenu, MenuItem.is_empty,
      MenuItem.get_children]
    cases cs <;> simp

/-- LEFT at hierarchy length at most 3 moves to the first child of the
cyclic previous sibling of the top-level submenu ancestor. -/
theorem handle_left_shallow (root : MenuItem) (p : List Nat) (d : Bool)
    (hw : wf_root root = true) (hv : (root.nodeAt p).isSome = true)
    (hnr : p ≠ []) (h3 : p.length + 1 ≤ 3) :
    MenuCursor.handle_key ⟨p, d⟩ root .left =
      some ⟨MenuPath.prev root (p.take 1) ++ [0], d⟩ := by
  obtain ⟨m, hm⟩ := Option.isSome_iff_exists.mp hv
  cases p with
  | nil => exact absurd rfl hnr
  | cons t r =>
    simp only [MenuCursor.handle_key, hm]
    have hlen : (hierarchy (t :: r)).length ≤ 3 := by
      rw [hierarchy_length]; simpa using h3
    rw [if_pos hlen, hierarchy_one]
    have hn : root.get_children ≠ [] := wf_root_top_ne_nil root hw
    have hnpos : 0 < root.get_children.length := List.length_pos.mpr hn
    have hps : MenuPath.prev root [t] =
        [(t + root.get_children.length - 1) % root.get_children.length] := by
      have h := prev_concat root [] t
      simpa [childrenAt_nil] using h
    have hidx : (t + root.get_children.length - 1) % root.get_children.length <
        root.get_children.length := Nat.mod_lt _ hnpos
    obtain ⟨c, hc⟩ := wf_top_child_first root hw _ hidx
    simp only [List.take_succ_cons, List.take_zero, hps, hc]

/-- LEFT at hierarchy length above 3 climbs to the parent. -/
theorem handle_left_deep (root : MenuItem) (p : List Nat) (d : Bool)
    (hv : (root.nodeAt p).isSome = true) (h3 : ¬ p.length + 1 ≤ 3) :
    MenuCursor.handle_key ⟨p, d⟩ root .left = some ⟨p.dropLast, d⟩ := by
  obtain ⟨m, hm⟩ := Option.isSome_iff_exists.mp hv
  simp only [MenuCursor.handle_key, hm]
  rw [if_neg (by rw [hierarchy_length]; exact h3)]

/-- RIGHT on an Action, at any depth, moves to the first child of the
cyclic next sibling of the top-level submenu ancestor. -/
theorem handle_right_action (root : MenuItem) (p : List Nat) (d : Bool)
    (lab : Label) (b : Bool) (hw : wf_root root = true)
    (ha : root.nodeAt p = some (.action lab b)) :
    MenuCursor.handle_key ⟨p, d⟩ root .right =
      some ⟨MenuPath.next root (p.take 1) ++ [0], d⟩ := by
  cases p with
  | nil =>
    have hr : root = .action lab b := by simpa [MenuItem.nodeAt] using ha
    rw [hr] at hw
    simp [wf_root] at hw
  | cons t r =>
    simp only [MenuCursor.handle_key, ha, MenuItem.isSubmenu]
    rw [if_neg (by simp), hierarchy_one]
    have hn : root.get_children ≠ [] := wf_root_top_ne_nil root hw
    have hnpos : 0 < root.get_children.length := List.length_pos.mpr hn
    have hns : MenuPath.next root [t] =
        [(t + 1) % root.get_children.length] := by
      have h := next_concat root [] t
      simpa [childrenAt_nil] using h
    have hidx : (t + 1) % root.get_children.length < root.get_children.length :=
      Nat.mod_lt _ hnpos
    obtain ⟨c, hc⟩ := wf_top_child_first root hw _ hidx
    simp only [List.take_succ_cons, List.take_zero, hns, hc]

/-- DOWN moves to the cyclic next sibling. -/
theorem handle_down_concat (root : MenuItem) (q : List Nat) (j : Nat) (d : Bool)
    (hv : (root.nodeAt (q ++ [j])).isSome = true) :
    MenuCursor.handle_key ⟨q ++ [j], d⟩ root .down =
      some ⟨q ++ [(j + 1) % (childrenAt root q).length], d⟩ := by
  obtain ⟨m, hm⟩ := Option.isSome_iff_exists.mp hv
  simp only [MenuCursor.handle_key, hm, next_concat]

/-- UP moves to the cyclic previous sibling. -/
theorem handle_up_concat (root : MenuItem) (q : List Nat) (j : Nat) (d : Bool)
    (hv : (root.nodeAt (q ++ [j])).isSome = true) :
    MenuCursor.handle_key ⟨q ++ [j], d⟩ root .up =
      some ⟨q ++ [(j + (childrenAt root q).length - 1) % (childrenAt root q).length],
        d⟩ := by
  obtain ⟨m, hm⟩ := Option.isSome_iff_exists.mp hv
  simp only [MenuCursor.handle_key, hm, prev_concat]

/-! ### Sample trees used by the witnesses and counterexamples -/

/-- The scenario tree of spec section 8: File → Quit (effect true),
View → Graph | Log. -/
def sample_tree : MenuItem :=
  .submenu ("", "root", "")
    [.submenu ("", "File", "") [.action ("", "Quit", "") true],
     .submenu ("", "View", "")
       [.action ("", "Graph", "") false, .action ("", "Log", "") false]]

/-- A malformed tree: the top-level submenu B has no children. -/
def bad_tree : MenuItem :=
  .submenu ("", "root", "")
    [.submenu ("", "A", "") [.action ("", "a", "") true],
     .submenu ("", "B", "") []]

/-! ### The claims -/

/-- C1: for a well-formed tree and a non-root selection, LEFT moves to the
first child of the cyclic previous sibling of the top-level submenu
ancestor (hierarchy index 1) when the hierarchy has length at most 3, and
to the selection's parent when the hierarchy is longer than 3; the done
flag is unchanged in both cases. -/
theorem left_key_cycles_or_climbs (root : MenuItem) (p : List Nat) (d : Bool)
    (hw : wf_root root = true) (hv : (root.nodeAt p).isSome = true)
    (hnr : p ≠ []) :
    MenuCursor.handle_key ⟨p, d⟩ root .left =
      some ⟨if p.length + 1 ≤ 3 then MenuPath.prev root (p.take 1) ++ [0]
            else p.dropLast, d⟩ := by
  by_cases h3 : p.length + 1 ≤ 3
  · rw [if_pos h3]
    exact handle_left_shallow root p d hw hv hnr h3
  · rw [if_neg h3]
    exact handle_left_deep root p d hv h3

theorem left_key_cycles_or_climbs_witness :
    MenuCursor.handle_key ⟨[1, 0], false⟩ sample_tree .left =
      some ⟨if ([1, 0] : List Nat).length + 1 ≤ 3 then
              MenuPath.prev sample_tree (([1, 0] : List Nat).take 1) ++ [0]
            else ([1, 0] : List Nat).dropLast, false⟩ :=
  left_key_cycles_or_climbs sample_tree [1, 0] false
    (by simp [sample_tree, wf_root, wfList, MenuItem.isSubmenu]) (by decide) (by decide)

/-- C2: for a well-formed tree and a selection that is an Action, at any
depth, RIGHT moves to the first child of the cyclic next sibling of the
top-level submenu ancestor; in particular, from a direct child of a
top-level submenu, LEFT yields the first child of the previous top-level
submenu while RIGHT yields the first child of the next one. -/
theorem right_key_on_action (root : MenuItem) (p : List Nat) (d : Bool)
    (lab : Label) (b : Bool) (hw : wf_root root = true)
    (ha : root.nodeAt p = some (.action lab b)) :
    MenuCursor.handle_key ⟨p, d⟩ root .right =
      some ⟨MenuPath.next root (p.take 1) ++ [0], d⟩ ∧
    (p.length = 2 →
      MenuCursor.handle_key ⟨p, d⟩ root .left =
        some ⟨MenuPath.prev root (p.take 1) ++ [0], d⟩) := by
  refine ⟨handle_right_action root p d lab b hw ha, fun h2 => ?_⟩
  have hv : (root.nodeAt p).isSome = true := by rw [ha]; rfl
  have hnr : p ≠ [] := by
    intro h
    rw [h] at h2
    simp at h2
  exact handle_left_shallow root p d hw hv hnr (by omega)

theorem right_key_on_action_witness :
    (MenuCursor.handle_key ⟨[0, 0], false⟩ sample_tree .right =
      some ⟨MenuPath.next sample_tree (([0, 0] : List Nat).take 1) ++ [0],
        false⟩ ∧
    (([0, 0] : List Nat).length = 2 →
      MenuCursor.handle_key ⟨[0, 0], false⟩ sample_tree .left =
        some ⟨MenuPath.prev sample_tree (([0, 0] : List Nat).take 1) ++ [0],
          false⟩)) :=
  right_key_on_action sample_tree [0, 0] false ("", "Quit", "") true
    (by simp [sample_tree, wf_root, wfList, MenuItem.isSubmenu]) rfl

/-- C3: for a selection that is a Submenu, SELECT and RIGHT behave
identically: a non-empty Submenu descends to exactly its first child, an
empty Submenu leaves the selection unchanged; the done flag is unchanged in
both cases. -/
theorem select_right_submenu_agree (root : MenuItem) (p : List Nat) (d : Bool)
    (lab : Label) (cs : List MenuItem)
    (hs : root.nodeAt p = some (.submenu lab cs)) :
    MenuCursor.handle_key ⟨p, d⟩ root .select =
      MenuCursor.handle_key ⟨p, d⟩ root .right ∧
    (cs ≠ [] → MenuCursor.handle_key ⟨p, d⟩ root .select = some ⟨p ++ [0], d⟩) ∧
    (cs = [] → MenuCursor.handle_key ⟨p, d⟩ root .select = some ⟨p, d⟩) := by
  have h1 := handle_descend root p d lab cs hs .select (Or.inl rfl)
  have h2 := handle_descend root p d lab cs hs .right (Or.inr rfl)
  refine ⟨h1.trans h2.symm, fun hne => ?_, fun he => ?_⟩
  · rw [h1]
    cases cs with
    | nil => exact absurd rfl hne
    | cons c cs2 => simp
  · rw [he] at h1
    rw [h1]
    simp

theorem select_right_submenu_agree_witness :
    (MenuCursor.handle_key ⟨[1], false⟩ sample_tree .select =
      MenuCursor.handle_key ⟨[1], false⟩ sample_tree .right ∧
    (([.action ("", "Graph", "") false, .action ("", "Log", "") false] :
        List MenuItem) ≠ [] →
      MenuCursor.handle_key ⟨[1], false⟩ sample_tree .select =
        some ⟨[1] ++ [0], false⟩) ∧
    (([.action ("", "Graph", "") false, .action ("", "Log", "") false] :
        List MenuItem) = [] →
      MenuCursor.handle_key ⟨[1], false⟩ sample_tree .select =
        some ⟨[1], false⟩)) :=
  select_right_submenu_agree sample_tree [1] false ("", "View", "")
    [.action ("", "Graph", "") false, .action ("", "Log", "") false] rfl

/-- C5: SELECT on an Action invokes the effect and sets the done flag to
exactly its boolean result, leaving the selection unchanged. -/
theorem select_action_sets_done (root : MenuItem) (p : List Nat) (d : Bool)
    (lab : Label) (b : Bool) (ha : root.nodeAt p = some (.action lab b)) :
    MenuCursor.handle_key ⟨p, d⟩ root .select = some ⟨p, b⟩ := by
  simp [MenuCursor.handle_key, ha, MenuItem.isSubmenu, MenuItem.select]

theorem select_action_sets_done_witness :
    MenuCursor.handle_key ⟨[0, 0], false⟩ sample_tree .select =
      some ⟨[0, 0], true⟩ :=
  select_action_sets_done sample_tree [0, 0] false ("", "Quit", "") true rfl

/-- C7: from any active cursor (non-root selection, done false), CLOSE
sets the done flag and leaves the selection unchanged, at any depth. -/
theorem close_key_terminates (root : MenuItem) (p : List Nat)
    (hv : (root.nodeAt p).isSome = true) (_hnr : p ≠ []) :
    MenuCursor.handle_key ⟨p, false⟩ root .close = some ⟨p, true⟩ := by
  obtain ⟨m, hm⟩ := Option.isSome_iff_exists.mp hv
  simp [MenuCursor.handle_key, hm]

theorem close_key_terminates_witness :
    MenuCursor.handle_key ⟨[1, 1], false⟩ sample_tree .close =
      some ⟨[1, 1], true⟩ :=
  close_key_terminates sample_tree [1, 1] (by decide) (by decide)

/-- C4 (amended): on a well-formed tree, `handle_key` is total on every
key for every non-root selection; and on every tree, malformed ones
included, a descending transition (SELECT or RIGHT on an empty Submenu)
leaves the cursor unchanged rather than failing. -/
theorem handle_key_total_wf (root : MenuItem) (p : List Nat) (d : Bool)
    (hv : (root.nodeAt p).isSome = true) (hnr : p ≠ []) :
    (wf_root root = true →
      ∀ k : Key, (MenuCursor.handle_key ⟨p, d⟩ root k).isSome = true) ∧
    (∀ lab : Label, root.nodeAt p = some (.submenu lab []) →
      MenuCursor.handle_key ⟨p, d⟩ root .select = some ⟨p, d⟩ ∧
      MenuCursor.handle_key ⟨p, d⟩ root .right = some ⟨p, d⟩) := by
  obtain ⟨m, hm⟩ := Option.isSome_iff_exists.mp hv
  constructor
  · intro hw k
    cases k with
    | select =>
      cases m with
      | submenu lab cs =>
        rw [handle_descend root p d lab cs hm .select (Or.inl rfl)]
        rfl
      | action lab b =>
        simp [MenuCursor.handle_key, hm, MenuItem.isSubmenu]
    | up => simp [MenuCursor.handle_key, hm]
    | down => simp [MenuCursor.handle_key, hm]
    | left =>
      by_cases h3 : p.length + 1 ≤ 3
      · rw [handle_left_shallow root p d hw hv hnr h3]
        rfl
      · rw [handle_left_deep root p d hv h3]
        rfl
    | right =>
      cases m with
      | submenu lab cs =>
        rw [handle_descend root p d lab cs hm .right (Or.inr rfl)]
        rfl
      | action lab b =>
        rw [handle_right_action root p d lab b hw hm]
        rfl
    | close => simp [MenuCursor.handle_key, hm]
    | other => simp [MenuCursor.handle_key, hm]
  · intro lab hs
    have h1 := handle_descend root p d lab [] hs .select (Or.inl rfl)
    have h2 := handle_descend root p d lab [] hs .right (Or.inr rfl)
    simp only [List.isEmpty_nil, if_true] at h1 h2
    exact ⟨h1, h2⟩

theorem handle_key_total_wf_witness :
    ((wf_root sample_tree = true →
      ∀ k : Key,
        (MenuCursor.handle_key ⟨[0, 0], false⟩ sample_tree k).isSome = true) ∧
    (∀ lab : Label, sample_tree.nodeAt [0, 0] = some (.submenu lab []) →
      MenuCursor.handle_key ⟨[0, 0], false⟩ sample_tree .select =
        some ⟨[0, 0], false⟩ ∧
      MenuCursor.handle_key ⟨[0, 0], false⟩ sample_tree .right =
        some ⟨[0, 0], false⟩)) :=
  handle_key_total_wf sample_tree [0, 0] false (by decide) (by decide)

/-- C4 counterexample: on the malformed `bad_tree` (top-level submenu B is
empty), RIGHT from the Action at path [0, 0] fails — the code evaluates
`next_submenu.get_children()[0]` on B's empty child list — so `handle_key`
is not total on every key for malformed trees, refuting the claim as
stated. -/
theorem handle_key_not_total_cex :
    (bad_tree.nodeAt [0, 0]).isSome = true ∧ ([0, 0] : List Nat) ≠ [] ∧
    MenuCursor.handle_key ⟨[0, 0], false⟩ bad_tree .right = none :=
  ⟨by decide, by decide, rfl⟩

/-- C10: a successful `handle_key` changes at most one of the two state
fields, never both: the navigation keys (UP, DOWN, LEFT, RIGHT) and SELECT
on a Submenu leave the done flag unchanged; SELECT on an Action and CLOSE
leave the selection unchanged; any other key changes neither. -/
theorem handle_key_frame (root : MenuItem) (c c2 : MenuCursor) (k : Key)
    (h : c.handle_key root k = some c2) :
    ((k = .up ∨ k = .down ∨ k = .left ∨ k = .right) →
      c2.is_done = c.is_done) ∧
    (k = .select → ∀ m, root.nodeAt c.selection = some m →
      (m.isSubmenu = true → c2.is_done = c.is_done) ∧
      (m.isSubmenu = false → c2.selection = c.selection)) ∧
    (k = .close → c2.selection = c.selection) ∧
    (k = .other → c2 = c) ∧
    (c2.selection = c.selection ∨ c2.is_done = c.is_done) := by
  cases hm : root.nodeAt c.selection with
  | none => simp [MenuCursor.handle_key, hm] at h
  | some m =>
    simp only [MenuCursor.handle_key, hm] at h
    cases k with
    | select =>
      refine ⟨by simp, fun _ m2 hm2 => ?_, by simp, by simp, ?_⟩
      · rw [Option.some_inj] at hm2
        subst hm2
        cases hsub : m.isSubmenu with
        | true =>
          rw [hsub] at h
          simp only [if_true] at h
          refine ⟨fun _ => ?_, fun hf => Bool.noConfusion hf⟩
          split at h <;> (rw [Option.some_inj] at h; subst h; rfl)
        | false =>
          rw [hsub] at h
          simp only [Bool.false_eq_true, if_false, Option.some_inj] at h
          subst h
          exact ⟨fun ht => Bool.noConfusion ht, fun _ => rfl⟩
      · cases hsub : m.isSubmenu with
        | true =>
          rw [hsub] at h
          simp only [if_true] at h
          split at h <;> (rw [Option.some_inj] at h; subst h; simp)
        | false =>
          rw [hsub] at h
          simp only [Bool.false_eq_true, if_false, Option.some_inj] at h
          subst h
          exact Or.inl rfl
    | up =>
      rw [Option.some_inj] at h
      subst h
      simp
    | down =>
      rw [Option.some_inj] at h
      subst h
      simp
    | left =>
      by_cases h3 : (hierarchy c.selection).length ≤ 3
      · rw [if_pos h3] at h
        cases h1 : (hierarchy c.selection)[1]? with
        | none => rw [h1] at h; cases h
        | some t =>
          rw [h1] at h
          simp only at h
          cases h0 : (childrenAt root (MenuPath.prev root t))[0]? with
          | none => rw [h0] at h; cases h
          | some c0 =>
            rw [h0] at h
            simp only [Option.some_inj] at h
            subst h
            simp
      · rw [if_neg h3, Option.some_inj] at h
        subst h
        simp
    | right =>
      cases hsub : m.isSubmenu with
      | true =>
        rw [hsub] at h
        simp only [if_true] at h
        split at h <;> (rw [Option.some_inj] at h; subst h; simp)
      | false =>
        rw [hsub] at h
        simp only [Bool.false_eq_true, if_false] at h
        cases h1 : (hierarchy c.selection)[1]? with
        | none => rw [h1] at h; cases h
        | some t =>
          rw [h1] at h
          simp only at h
          cases h0 : (childrenAt root (MenuPath.next root t))[0]? with
          | none => rw [h0] at h; cases h
          | some c0 =>
            rw [h0] at h
            simp only [Option.some_inj] at h
            subst h
            simp
    | close =>
      rw [Option.some_inj] at h
      subst h
      simp
    | other =>
      rw [Option.some_inj] at h
      subst h
      simp

theorem handle_key_frame_witness :
    ((Key.close = .up ∨ Key.close = .down ∨ Key.close = .left ∨
        Key.close = .right) →
      (⟨[0, 0], true⟩ : MenuCursor).is_done =
        (⟨[0, 0], false⟩ : MenuCursor).is_done) ∧
    (Key.close = .select → ∀ m,
      sample_tree.nodeAt ([0, 0] : List Nat) = some m →
      (m.isSubmenu = true →
        (⟨[0, 0], true⟩ : MenuCursor).is_done =
          (⟨[0, 0], false⟩ : MenuCursor).is_done) ∧
      (m.isSubmenu = false →
        (⟨[0, 0], true⟩ : MenuCursor).selection =
          (⟨[0, 0], false⟩ : MenuCursor).selection)) ∧
    (Key.close = .close →
      (⟨[0, 0], true⟩ : MenuCursor).selection =
        (⟨[0, 0], false⟩ : MenuCursor).selection) ∧
    (Key.close = .other → (⟨[0, 0], true⟩ : MenuCursor) = ⟨[0, 0], false⟩) ∧
    ((⟨[0, 0], true⟩ : MenuCursor).selection =
        (⟨[0, 0], false⟩ : MenuCursor).selection ∨
      (⟨[0, 0], true⟩ : MenuCursor).is_done =
        (⟨[0, 0], false⟩ : MenuCursor).is_done) :=
  handle_key_frame sample_tree ⟨[0, 0], false⟩ ⟨[0, 0], true⟩ .close rfl

/-- Iterating DOWN advances the sibling index cyclically. -/
theorem down_iter (root : MenuItem) (q : List Nat) (d : Bool) (m : MenuItem)
    (hq : root.nodeAt q = some m) :
    ∀ (k j : Nat), j < m.get_children.length →
      MenuCursor.apply_keys ⟨q ++ [j], d⟩ root (List.replicate k .down) =
        some ⟨q ++ [(j + k) % m.get_children.length], d⟩ := by
  intro k
  induction k with
  | zero =>
    intro j hj
    simp [MenuCursor.apply_keys, Nat.mod_eq_of_lt hj]
  | succ k ih =>
    intro j hj
    have hnpos : 0 < m.get_children.length := Nat.lt_of_le_of_lt (Nat.zero_le j) hj
    have hv : (root.nodeAt (q ++ [j])).isSome = true := valid_concat root q j m hq hj
    rw [List.replicate_succ]
    simp only [MenuCursor.apply_keys]
    rw [handle_down_concat root q j d hv, childrenAt_of_nodeAt root q m hq]
    simp only []
    rw [ih ((j + 1) % m.get_children.length) (Nat.mod_lt _ hnpos),
      Nat.mod_add_mod]
    have harith : j + 1 + k = j + (k + 1) := by omega
    rw [harith]

/-- Iterating UP retreats the sibling index cyclically. -/
theorem up_iter (root : MenuItem) (q : List Nat) (d : Bool) (m : MenuItem)
    (hq : root.nodeAt q = some m) :
    ∀ (k j : Nat), j < m.get_children.length →
      MenuCursor.apply_keys ⟨q ++ [j], d⟩ root (List.replicate k .up) =
        some ⟨q ++ [(j + k * (m.get_children.length - 1)) %
          m.get_children.length], d⟩ := by
  intro k
  induction k with
  | zero =>
    intro j hj
    simp [MenuCursor.apply_keys, Nat.mod_eq_of_lt hj]
  | succ k ih =>
    intro j hj
    have hnpos : 0 < m.get_children.length := Nat.lt_of_le_of_lt (Nat.zero_le j) hj
    have hv : (root.nodeAt (q ++ [j])).isSome = true := valid_concat root q j m hq hj
    rw [List.replicate_succ]
    simp only [MenuCursor.apply_keys]
    rw [handle_up_concat root q j d hv, childrenAt_of_nodeAt root q m hq]
    simp only []
    rw [ih ((j + m.get_children.length - 1) % m.get_children.length)
      (Nat.mod_lt _ hnpos), Nat.mod_add_mod]
    have harith : j + m.get_children.length - 1 +
        k * (m.get_children.length - 1) =
        j + (k + 1) * (m.get_children.length - 1) := by
      rw [Nat.succ_mul]
      omega
    rw [harith]

/-- C6: from the first child of a Submenu with n children, n consecutive
DOWN key presses return the selection to the first child, and so do n
consecutive UP key presses (cyclic sibling navigation round-trips over the
full sibling list). -/
theorem cyclic_sibling_roundtrip (root : MenuItem) (q : List Nat) (d : Bool)
    (m : MenuItem) (hq : root.nodeAt q = some m)
    (hne : m.get_children ≠ []) :
    MenuCursor.apply_keys ⟨q ++ [0], d⟩ root
        (List.replicate m.get_children.length .down) = some ⟨q ++ [0], d⟩ ∧
    MenuCursor.apply_keys ⟨q ++ [0], d⟩ root
        (List.replicate m.get_children.length .up) = some ⟨q ++ [0], d⟩ := by
  have hnpos : 0 < m.get_children.length := List.length_pos.mpr hne
  constructor
  · rw [down_iter root q d m hq _ 0 hnpos]
    simp [Nat.mod_self]
  · rw [up_iter root q d m hq _ 0 hnpos]
    simp [Nat.mul_mod_right]

theorem cyclic_sibling_roundtrip_witness :
    MenuCursor.apply_keys ⟨[1] ++ [0], false⟩ sample_tree
        (List.replicate (MenuItem.submenu ("", "View", "")
          [.action ("", "Graph", "") false,
           .action ("", "Log", "") false]).get_children.length .down) =
      some ⟨[1] ++ [0], false⟩ ∧
    MenuCursor.apply_keys ⟨[1] ++ [0], false⟩ sample_tree
        (List.replicate (MenuItem.submenu ("", "View", "")
          [.action ("", "Graph", "") false,
           .action ("", "Log", "") false]).get_children.length .up) =
      some ⟨[1] ++ [0], false⟩ :=
  cyclic_sibling_roundtrip sample_tree [1] false
    (.submenu ("", "View", "")
      [.action ("", "Graph", "") false, .action ("", "Log", "") false])
    rfl (by simp [MenuItem.get_children])

/-! ### Lemmas about the renderer's column sizing -/

theorem nat_max_eq_max (a b : Nat) : Nat.max a b = max a b := rfl

theorem le_foldl_max (xs : List Nat) (a : Nat) : a ≤ xs.foldl Nat.max a := by
  induction xs generalizing a with
  | nil => exact Nat.le_refl a
  | cons x xs ih =>
    simp only [List.foldl_cons]
    exact Nat.le_trans (Nat.le_max_left a x) (ih (Nat.max a x))

theorem mem_le_foldl_max (xs : List Nat) :
    ∀ (a x : Nat), x ∈ xs → x ≤ xs.foldl Nat.max a := by
  induction xs with
  | nil =>
    intro a x hx
    cases hx
  | cons y ys ih =>
    intro a x hx
    simp only [List.foldl_cons]
    rcases List.mem_cons.mp hx with rfl | h
    · exact Nat.le_trans (Nat.le_max_right a x) (le_foldl_max ys (Nat.max a x))
    · exact ih (Nat.max a y) x h

theorem foldl_max_eq_or_mem (xs : List Nat) :
    ∀ a, xs.foldl Nat.max a = a ∨ xs.foldl Nat.max a ∈ xs := by
  induction xs with
  | nil =>
    intro a
    exact Or.inl rfl
  | cons y ys ih =>
    intro a
    simp only [List.foldl_cons]
    rcases ih (Nat.max a y) with h | h
    · rw [h]
      rcases Nat.le_total y a with hle | hle
      · exact Or.inl (Nat.max_eq_left hle)
      · exact Or.inr
          (by rw [nat_max_eq_max, Nat.max_eq_right hle]
              exact List.mem_cons_self y ys)
    · exact Or.inr (List.mem_cons_of_mem y h)

/-- The Python `max` of a mapped non-empty list is attained by some
element. -/
theorem foldl_max_attained (ls : List Label) (f : Label → Nat) (h : ls ≠ []) :
    ∃ l ∈ ls, f l = (ls.map f).foldl Nat.max 0 := by
  rcases foldl_max_eq_or_mem (ls.map f) 0 with h0 | hmem
  · cases ls with
    | nil => exact absurd rfl h
    | cons l0 ls2 =>
      refine ⟨l0, List.mem_cons_self l0 ls2, ?_⟩
      have hle : f l0 ≤ (List.map f (l0 :: ls2)).foldl Nat.max 0 :=
        mem_le_foldl_max _ 0 (f l0)
          (List.mem_map_of_mem f (List.mem_cons_self l0 ls2))
      omega
  · obtain ⟨l, hl, hfl⟩ := List.mem_map.mp hmem
    exact ⟨l, hl, hfl⟩

theorem string_mk_length (l : List Char) : (String.mk l).length = l.length := rfl

theorem ljust_length (s : String) (w : Nat) :
    (ljust s w).length = Nat.max w s.length := by
  simp only [ljust, String.length_append, string_mk_length,
    List.length_replicate, nat_max_eq_max]
  rcases Nat.le_total s.length w with hsw | hsw
  · rw [Nat.max_eq_left hsw]
    omega
  · rw [Nat.max_eq_right hsw]
    omega

theorem format_label_length (w : Nat × Nat × Nat) (l : Label) :
    (format_label w l).length =
      Nat.max w.1 l.1.length + Nat.max w.2.1 l.2.1.length +
        Nat.max w.2.2 l.2.2.length + 2 := by
  simp only [format_label, String.length_append, ljust_length,
    show (" " : String).length = 1 from rfl]
  omega

/-- C8: the renderer's column widths are the per-part maxima of the label
part lengths, taken independently across the children (on the claim's
example the widths are (3, 2, 2)), and every formatted row has the same
total length: the sum of the three column widths plus the fixed padding
of 2. -/
theorem col_widths_align (ls : List Label) (h : ls ≠ []) :
    col_sizes [("a", "bb", "c"), ("aaa", "b", "cc")] = (3, 2, 2) ∧
    (∀ l ∈ ls, l.1.length ≤ (col_sizes ls).1 ∧
      l.2.1.length ≤ (col_sizes ls).2.1 ∧
      l.2.2.length ≤ (col_sizes ls).2.2) ∧
    ((∃ l ∈ ls, l.1.length = (col_sizes ls).1) ∧
     (∃ l ∈ ls, l.2.1.length = (col_sizes ls).2.1) ∧
     (∃ l ∈ ls, l.2.2.length = (col_sizes ls).2.2)) ∧
    (∀ l ∈ ls, (format_label (col_sizes ls) l).length =
      (col_sizes ls).1 + (col_sizes ls).2.1 + (col_sizes ls).2.2 + 2) := by
  refine ⟨rfl, fun l hl => ?_, ⟨?_, ?_, ?_⟩, fun l hl => ?_⟩
  · simp only [col_sizes]
    exact ⟨mem_le_foldl_max _ 0 _ (List.mem_map_of_mem _ hl),
      mem_le_foldl_max _ 0 _ (List.mem_map_of_mem _ hl),
      mem_le_foldl_max _ 0 _ (List.mem_map_of_mem _ hl)⟩
  · simpa only [col_sizes] using foldl_max_attained ls (fun x => x.1.length) h
  · simpa only [col_sizes] using foldl_max_attained ls (fun x => x.2.1.length) h
  · simpa only [col_sizes] using foldl_max_attained ls (fun x => x.2.2.length) h
  · rw [format_label_length]
    have b1 := mem_le_foldl_max (ls.map fun x => x.1.length) 0 l.1.length
      (List.mem_map_of_mem _ hl)
    have b2 := mem_le_foldl_max (ls.map fun x => x.2.1.length) 0 l.2.1.length
      (List.mem_map_of_mem _ hl)
    have b3 := mem_le_foldl_max (ls.map fun x => x.2.2.length) 0 l.2.2.length
      (List.mem_map_of_mem _ hl)
    simp only [col_sizes, nat_max_eq_max]
    rw [Nat.max_eq_left b1, Nat.max_eq_left b2, Nat.max_eq_left b3]

theorem col_widths_align_witness :
    ([("a", "bb", "c"), ("aaa", "b", "cc")] : List Label) ≠ [] ∧
    col_sizes [("a", "bb", "c"), ("aaa", "b", "cc")] = (3, 2, 2) :=
  ⟨by simp,
   (col_widths_align [("a", "bb", "c"), ("aaa", "b", "cc")] (by simp)).1⟩

/-- The recursion draws one panel per open submenu level below `level`. -/
theorem draw_submenu_length (root : MenuItem) (sel : List Nat) :
    ∀ (k L t l : Nat), sel.length - L = k →
      (draw_submenu root sel L t l).length = k := by
  intro k
  induction k with
  | zero =>
    intro L t l hk
    have hc : sel.length + 1 < L + 2 := by omega
    rw [draw_submenu, dif_pos hc]
    rfl
  | succ k ih =>
    intro L t l hk
    have hc : ¬ (sel.length + 1 < L + 2) := by omega
    rw [draw_submenu, dif_neg hc]
    simp only [List.length_cons]
    rw [ih (L + 1) _ _ (by omega)]

/-- C9: the recursive draw at level L draws nothing (at that level or
deeper) exactly when the hierarchy's length is below L + 2; otherwise it
draws the panel for hierarchy[L] at the given (top, left) — its height the
child count, its highlighted row the selected child's index — and recurses
to level L + 1 with the next panel at top-offset top + that row index and
left-offset left + this panel's total width; in total the hierarchy length
minus (L + 1) panels are drawn. -/
theorem draw_submenu_recursion (root : MenuItem) (sel : List Nat)
    (L t l : Nat) :
    (draw_submenu root sel L t l = [] ↔ sel.length + 1 < L + 2) ∧
    (draw_submenu root sel L t l).length = sel.length - L ∧
    (L + 2 ≤ sel.length + 1 →
      ∃ pl rest, draw_submenu root sel L t l = pl :: rest ∧
        pl.top = t ∧ pl.left = l ∧
        pl.height = (childrenAt root (sel.take L)).length ∧
        pl.width =
          menu_width ((childrenAt root (sel.take L)).map MenuItem.get_label) ∧
        pl.selection_top = sel.getD L 0 ∧
        rest = draw_submenu root sel (L + 1) (t + pl.selection_top)
          (l + pl.width)) := by
  refine ⟨?_, draw_submenu_length root sel (sel.length - L) L t l rfl, ?_⟩
  · by_cases hc : sel.length + 1 < L + 2
    · rw [draw_submenu, dif_pos hc]
      simp [hc]
    · rw [draw_submenu, dif_neg hc]
      simp [hc]
  · intro hcont
    have hc : ¬ (sel.length + 1 < L + 2) := by omega
    rw [draw_submenu, dif_neg hc]
    exact ⟨_, _, rfl, rfl, rfl, rfl, rfl, rfl, rfl⟩

theorem draw_submenu_recursion_witness :
    (draw_submenu sample_tree [1, 0] 1 1 5 = [] ↔
      ([1, 0] : List Nat).length + 1 < 1 + 2) ∧
    (draw_submenu sample_tree [1, 0] 1 1 5).length =
      ([1, 0] : List Nat).length - 1 ∧
    (1 + 2 ≤ ([1, 0] : List Nat).length + 1 →
      ∃ pl rest, draw_submenu sample_tree [1, 0] 1 1 5 = pl :: rest ∧
        pl.top = 1 ∧ pl.left = 5 ∧
        pl.height =
          (childrenAt sample_tree (([1, 0] : List Nat).take 1)).length ∧
        pl.width = menu_width ((childrenAt sample_tree
          (([1, 0] : List Nat).take 1)).map MenuItem.get_label) ∧
        pl.selection_top = ([1, 0] : List Nat).getD 1 0 ∧
        rest = draw_submenu sample_tree [1, 0] (1 + 1)
          (1 + pl.selection_top) (5 + pl.width)) :=
  draw_submenu_recursion sample_tree [1, 0] 1 1 5

end Nyx
